import Mathlib

/-!
Shallow embedding of the order-matching and aggregation engine of this
repository (identifier normalization, rule lookup, weight resolution,
aggregation into matched/unmatched summary rows, final sorting, backup
loading and consumers of the aggregated rows), together with theorems
settling the specification claims.

Conventions of the embedding:
* JavaScript strings become `String`; optional fields become `Option`.
* Numeric quantities and weights, which the program treats as integers,
  become `Nat` (monetary fields, which can be parsed negative, become `Int`).
* JavaScript truthiness on a number is the test `≠ 0`; on an optional
  string it is `some s` with `s ≠ ""`.
* A JavaScript object used as a string-keyed dictionary becomes an
  association list in key-insertion order.
* `Array.prototype.sort(cmp)` (a comparison sort) is modelled by
  `List.insertionSort` over the relation `cmp a b ≤ 0`; the locale-aware
  `String.localeCompare` of the host is an abstract parameter
  `lc : String → String → Ordering`.
-/

/-- One parsed spreadsheet order row (interface `OrderData` of the source;
the UI-only fields `originalRowData` and `excelFormat`, which the engine
never reads, are omitted). -/
structure OrderData where
  seller : String
  productNumber : String
  productName : String
  optionName : String
  quantity : Nat
  paymentAmount : Int
  settlementAmount : Int
  purchaseAmount : Int
  weight : Nat
  stockLocation : String
  boxSpec : String
deriving Repr, DecidableEq

/-- One user-defined rule group (interface `MatchingRuleGroup` of the source).
The sparse per-identifier weight map `ruleWeights` is an association list,
absent when the JavaScript field is `undefined`. -/
structure MatchingRuleGroup where
  productName : String
  stock : Nat
  quantityWeight : Nat
  rules : List String
  ruleWeights : Option (List (String × Nat))
  id : Option String
deriving Repr, DecidableEq

/-- One aggregated output row (interface `ProcessedData` of the source). -/
structure ProcessedData where
  productName : String
  printName : String
  isMatched : Bool
  salesAmount : Int
  settlementAmount : Int
  orderCount : Nat
  quantity : Nat
  managementCode : String
  purchaseAmount : Int
  weight : Nat
  stockLocation : String
  boxSpec : String
  stock : Option Nat
  originalOrder : Option OrderData
  matchedRuleId : Option String
deriving Repr, DecidableEq

/-- JavaScript `a || b` on non-negative numbers: `a` when truthy (nonzero),
otherwise `b`. -/
def natOr (a b : Nat) : Nat := if a ≠ 0 then a else b

/-- JavaScript truthiness of an optional string: present and nonempty. -/
def strOptTruthy : Option String → Bool
  | some s => s ≠ ""
  | none => false

/-- Field normalization of `excelProcessor.ts`: trim whitespace from both
ends and lowercase every character (a missing or empty value yields the
empty string). Implemented on the character list so that it evaluates by
kernel reduction; it agrees with `String.trim` followed by `String.toLower`. -/
def normalizeFieldValue (value : String) : String :=
  ⟨(((value.data.dropWhile Char.isWhitespace).reverse.dropWhile
      Char.isWhitespace).reverse).map Char.toLower⟩

/-- Identifier construction of `excelProcessor.ts` (`createOrderIdentifier`):
the four normalized key fields joined by a pipe; quantity and the ancillary
fields never participate. -/
def createOrderIdentifier (order : OrderData) : String :=
  normalizeFieldValue order.seller ++ "|" ++
  normalizeFieldValue order.productNumber ++ "|" ++
  normalizeFieldValue order.productName ++ "|" ++
  normalizeFieldValue order.optionName

/-- First-match lookup of `excelProcessor.ts` (`findMatchingRule`): scan the
groups in stored order and return the first whose `rules` list contains the
order's identifier, together with that identifier; `none` when no group
contains it. -/
def findMatchingRule (order : OrderData) :
    List MatchingRuleGroup → Option (MatchingRuleGroup × String)
  | [] => none
  | group :: rest =>
    if group.rules.contains (createOrderIdentifier order) then
      some (group, createOrderIdentifier order)
    else
      findMatchingRule order rest

/-- Association-list lookup modelling a JavaScript object property read. -/
def wlookup : List (String × Nat) → String → Option Nat
  | [], _ => none
  | (k, v) :: rest, key => if k = key then some v else wlookup rest key

/-- Read `rule.ruleWeights[ruleId]` through the optional `ruleWeights`
object (absent object or absent key both give `none`). -/
def ruleWeightsLookup (ws : Option (List (String × Nat))) (ruleId : String) :
    Option Nat :=
  match ws with
  | some l => wlookup l ruleId
  | none => none

/-- Weight resolution inlined in `processOrders`:
`rule.ruleWeights and rule.ruleWeights[ruleId] ? rule.ruleWeights[ruleId] :
rule.quantityWeight || 1` — the stored override when truthy (nonzero),
otherwise the group default when truthy, otherwise 1. -/
def resolveWeight (rule : MatchingRuleGroup) (ruleId : String) : Nat :=
  match ruleWeightsLookup rule.ruleWeights ruleId with
  | some w => if w ≠ 0 then w else natOr rule.quantityWeight 1
  | none => natOr rule.quantityWeight 1

/-- Key tag prepended to the identifier of an unmatched accumulator row
(the source uses the literal Korean text for "unmatched"). -/
def unmatchedTag : String := "미매칭-"

/-- Fresh matched accumulator row created by `processOrders` when a matched
order's key is not yet present. -/
def newMatchedRow (key : String) (rule : MatchingRuleGroup) : ProcessedData :=
  { productName := "수집주문-" ++ key
    printName := key
    isMatched := true
    salesAmount := 0, settlementAmount := 0, orderCount := 0, quantity := 0
    managementCode := "", purchaseAmount := 0, weight := 0
    stockLocation := "", boxSpec := "", stock := some rule.stock
    originalOrder := none
    matchedRuleId := rule.id }

/-- Accumulation of one matched order into its row (`processOrders`). -/
def addMatchedOrder (row : ProcessedData) (order : OrderData) (weight : Nat) :
    ProcessedData :=
  { row with
    quantity := row.quantity + order.quantity * weight
    salesAmount := row.salesAmount + order.paymentAmount
    settlementAmount := row.settlementAmount + order.settlementAmount
    orderCount := row.orderCount + 1
    purchaseAmount := row.purchaseAmount + order.purchaseAmount
    weight := row.weight + order.weight * order.quantity
    stockLocation :=
      if row.stockLocation = "" ∧ order.stockLocation ≠ "" then
        order.stockLocation
      else row.stockLocation
    boxSpec :=
      if row.boxSpec = "" ∧ order.boxSpec ≠ "" then order.boxSpec
      else row.boxSpec }

/-- Display name of an unmatched row: the nonempty ones among seller,
product name and option name joined by " / ". -/
def unmatchedPrintName (order : OrderData) : String :=
  String.intercalate " / "
    (([order.seller, order.productName, order.optionName]).filter
      (fun s => s ≠ ""))

/-- Fresh unmatched accumulator row created by `processOrders`. -/
def newUnmatchedRow (key : String) (order : OrderData) : ProcessedData :=
  { productName := key
    printName :=
      if unmatchedPrintName order ≠ "" then unmatchedPrintName order
      else "정보부족"
    isMatched := false
    salesAmount := 0, settlementAmount := 0, orderCount := 0, quantity := 0
    managementCode := "", purchaseAmount := 0, weight := 0
    stockLocation := order.stockLocation, boxSpec := order.boxSpec
    stock := none
    originalOrder := some order
    matchedRuleId := none }

/-- Accumulation of one unmatched order into its row (`processOrders`);
note that unlike the matched branch it never updates `stockLocation` or
`boxSpec` after creation. -/
def addUnmatchedOrder (row : ProcessedData) (order : OrderData) :
    ProcessedData :=
  { row with
    quantity := row.quantity + order.quantity
    salesAmount := row.salesAmount + order.paymentAmount
    settlementAmount := row.settlementAmount + order.settlementAmount
    orderCount := row.orderCount + 1
    purchaseAmount := row.purchaseAmount + order.purchaseAmount
    weight := row.weight + order.weight * order.quantity }

/-- Lookup in the accumulator dictionary (keys in insertion order). -/
def findRow : List (String × ProcessedData) → String → Option ProcessedData
  | [], _ => none
  | (k, r) :: rest, key => if k = key then some r else findRow rest key

/-- Update of the accumulator dictionary: replace the row at an existing
key in place, otherwise append the new key at the end, exactly as property
assignment behaves on a JavaScript object. -/
def upsertRow : List (String × ProcessedData) → String → ProcessedData →
    List (String × ProcessedData)
  | [], key, row => [(key, row)]
  | (k, r) :: rest, key, row =>
    if k = key then (k, row) :: rest else (k, r) :: upsertRow rest key row

/-- One iteration of the `orders.forEach` body of `processOrders`. -/
def processOrder (ruleGroups : List MatchingRuleGroup)
    (m : List (String × ProcessedData)) (order : OrderData) :
    List (String × ProcessedData) :=
  match findMatchingRule order ruleGroups with
  | some (rule, ruleId) =>
    let key := rule.productName
    let weight := resolveWeight rule ruleId
    let base := (findRow m key).getD (newMatchedRow key rule)
    upsertRow m key (addMatchedOrder base order weight)
  | none =>
    let key := unmatchedTag ++ createOrderIdentifier order
    let base := (findRow m key).getD (newUnmatchedRow key order)
    upsertRow m key (addUnmatchedOrder base order)

/-- The accumulation pass of `processOrders` before sorting: fold every
order into the keyed dictionary. -/
def buildRows (orders : List OrderData) (ruleGroups : List MatchingRuleGroup) :
    List (String × ProcessedData) :=
  orders.foldl (processOrder ruleGroups) []

/-- The final comparator of `processOrders` as a "less or equal" test:
matched rows strictly before unmatched ones, ties broken by
`printName.localeCompare` being at most zero (`lc` abstracts the host's
locale-aware comparison). -/
def rowCompareLE (lc : String → String → Ordering) (a b : ProcessedData) :
    Prop :=
  if a.isMatched ∧ ¬ b.isMatched then True
  else if ¬ a.isMatched ∧ b.isMatched then False
  else lc a.printName b.printName ≠ Ordering.gt

instance (lc : String → String → Ordering) : DecidableRel (rowCompareLE lc) :=
  fun a b => by unfold rowCompareLE; infer_instance

/-- Full aggregation pass of `excelProcessor.ts` (`processOrders`): fold the
orders into accumulator rows, then sort matched-before-unmatched and by
display name within each partition. -/
def processOrders (lc : String → String → Ordering) (orders : List OrderData)
    (ruleGroups : List MatchingRuleGroup) : List ProcessedData :=
  ((buildRows orders ruleGroups).map Prod.snd).insertionSort (rowCompareLE lc)

/-- Key under which one order is accumulated: the matched group's
`productName`, or the tagged identifier when unmatched. -/
def rowKey (ruleGroups : List MatchingRuleGroup) (order : OrderData) : String :=
  match findMatchingRule order ruleGroups with
  | some (rule, _) => rule.productName
  | none => unmatchedTag ++ createOrderIdentifier order

/-- Quantity contributed by one order to its row: weighted when matched,
raw when unmatched. -/
def contribQty (ruleGroups : List MatchingRuleGroup) (order : OrderData) :
    Nat :=
  match findMatchingRule order ruleGroups with
  | some (rule, ruleId) => order.quantity * resolveWeight rule ruleId
  | none => order.quantity

/-- Weight the engine resolves for an order (zero when the order matches no
group, in which case no weight is ever applied). -/
def resolvedWeightOf (ruleGroups : List MatchingRuleGroup)
    (order : OrderData) : Nat :=
  match findMatchingRule order ruleGroups with
  | some (rule, ruleId) => resolveWeight rule ruleId
  | none => 0

/-- JavaScript `Math.round(q / w)` for non-negative integers `q` and a
positive divisor `w`: division rounded half up. -/
def roundDiv (q w : Nat) : Nat := (2 * q + w) / (2 * w)

/-- Weight displayed for one member identifier in `DetailedMatchView.tsx`
(lines 127–130): the stored per-identifier weight when truthy, otherwise
the group default when truthy, otherwise 1. -/
def displayWeight (matchingRule : MatchingRuleGroup) (ruleId : String) : Nat :=
  match ruleWeightsLookup matchingRule.ruleWeights ruleId with
  | some w => if w ≠ 0 then w else natOr matchingRule.quantityWeight 1
  | none => natOr matchingRule.quantityWeight 1

/-- Lookup of the matched rule and its effective weight for one aggregated
row (`getMatchingWeight` in the application component): find the rule by id
when `matchedRuleId` is truthy, otherwise by display name; consult the
per-identifier weight only through the row's retained `originalOrder`;
fall back to the group default or 1. -/
def getMatchingWeight (matchingRules : List MatchingRuleGroup)
    (item : ProcessedData) : Nat :=
  if item.isMatched = false then 1
  else
    let matchedRule :=
      if strOptTruthy item.matchedRuleId then
        matchingRules.find? (fun rule => rule.id == item.matchedRuleId)
      else
        matchingRules.find? (fun rule => rule.productName == item.printName)
    match matchedRule with
    | none => 1
    | some rule =>
      match item.originalOrder with
      | some order =>
        match ruleWeightsLookup rule.ruleWeights
            (createOrderIdentifier order) with
        | some w => if w ≠ 0 then w else natOr rule.quantityWeight 1
        | none => natOr rule.quantityWeight 1
      | none => natOr rule.quantityWeight 1

/-- Consumer-derived original quantity (`getOriginalQuantity` in the
application component): the row's raw quantity when unmatched, otherwise
the weighted quantity divided by the effective matching weight, rounded. -/
def getOriginalQuantity (matchingRules : List MatchingRuleGroup)
    (row : ProcessedData) : Nat :=
  if row.isMatched = false then row.quantity
  else roundDiv row.quantity (natOr (getMatchingWeight matchingRules row) 1)

/-- Association-list update at a key (JavaScript object property write):
replace in place, or append the key at the end. -/
def setWeight : List (String × Nat) → String → Nat → List (String × Nat)
  | [], key, v => [(key, v)]
  | (k, w) :: rest, key, v =>
    if k = key then (k, v) :: rest else (k, w) :: setWeight rest key v

/-- Merge of a newly created one-identifier rule group into an existing
group of the same `productName` (`handleRuleCreate`, creation mode, when a
group with that name already exists): add the identifier when new, and
record its weight (the new group's per-identifier weight when truthy,
otherwise its `quantityWeight`); when the identifier already exists, only a
truthy per-identifier weight of the new group is recorded. -/
def mergeIntoGroup (existingGroup newRuleGroup : MatchingRuleGroup) :
    MatchingRuleGroup :=
  let newIdentifier := newRuleGroup.rules.headD ""
  if existingGroup.rules.contains newIdentifier then
    let eg := { existingGroup with
                ruleWeights := some (existingGroup.ruleWeights.getD []) }
    match ruleWeightsLookup newRuleGroup.ruleWeights newIdentifier with
    | some w =>
      if w ≠ 0 then
        { eg with
          ruleWeights := some (setWeight (eg.ruleWeights.getD []) newIdentifier w) }
      else eg
    | none => eg
  else
    let eg := { existingGroup with
                rules := existingGroup.rules ++ [newIdentifier]
                ruleWeights := some (existingGroup.ruleWeights.getD []) }
    let w :=
      match ruleWeightsLookup newRuleGroup.ruleWeights newIdentifier with
      | some w => if w ≠ 0 then w else newRuleGroup.quantityWeight
      | none => newRuleGroup.quantityWeight
    { eg with
      ruleWeights := some (setWeight (eg.ruleWeights.getD []) newIdentifier w) }

/-- Rule creation (`handleRuleCreate` of the application, creation mode):
when a group with the same `productName` already exists, merge the new
identifier into the first such group instead of creating a duplicate;
otherwise append the new group at the end. -/
def handleRuleCreate : List MatchingRuleGroup → MatchingRuleGroup →
    List MatchingRuleGroup
  | [], newRuleGroup => [newRuleGroup]
  | group :: rest, newRuleGroup =>
    if group.productName = newRuleGroup.productName then
      mergeIntoGroup group newRuleGroup :: rest
    else
      group :: handleRuleCreate rest newRuleGroup

/-- Parsed JSON value, the input of backup loading. -/
inductive JsonValue where
  | null
  | bool (b : Bool)
  | num (n : Int)
  | str (s : String)
  | arr (elems : List JsonValue)
  | obj (fields : List (String × JsonValue))

/-- Association-list lookup over JSON object fields. -/
def jsonFieldLookup : List (String × JsonValue) → String → Option JsonValue
  | [], _ => none
  | (k, v) :: rest, key =>
    if k = key then some v else jsonFieldLookup rest key

/-- JavaScript property read on a parsed JSON value: a named field of an
object, `undefined` (here `none`) on every other value. -/
def jsonGetField : JsonValue → String → Option JsonValue
  | JsonValue.obj fields, key => jsonFieldLookup fields key
  | _, _ => none

/-- Backup loading (`loadBackup` of `backupManager`), applied to the parsed
file content: succeed with the raw `rules` elements only when the `rules`
field is an array and the `version` field is exactly the string "v1";
otherwise reject (the thrown format error is caught and surfaced as the
file-read failure message). -/
def loadBackup (parsed : JsonValue) : Except String (List JsonValue) :=
  match jsonGetField parsed "rules" with
  | some (JsonValue.arr elems) =>
    match jsonGetField parsed "version" with
    | some (JsonValue.str v) =>
      if v = "v1" then Except.ok elems
      else Except.error "백업 파일을 읽는데 실패했습니다."
    | _ => Except.error "백업 파일을 읽는데 실패했습니다."
  | _ => Except.error "백업 파일을 읽는데 실패했습니다."

/-- Backup upload handling (`handleBackupUpload` of the application) as a
transformer of the current rule list: on success, install the loaded rules
(decoded by the collaborator `decodeRule`, with a fresh id assigned where
missing, `freshId` abstracting the impure id generator); on failure, keep
the existing rules unchanged. -/
def handleBackupUpload (decodeRule : JsonValue → MatchingRuleGroup)
    (freshId : Nat → String) (currentRules : List MatchingRuleGroup)
    (file : JsonValue) : List MatchingRuleGroup :=
  match loadBackup file with
  | Except.ok loadedRules =>
    ((loadedRules.map decodeRule).enum).map (fun p =>
      if strOptTruthy p.2.id then p.2 else { p.2 with id := some (freshId p.1) })
  | Except.error _ => currentRules

/-! ### Helper lemmas about the rule lookup -/

theorem findMatchingRule_mem {order : OrderData} :
    ∀ {groups : List MatchingRuleGroup} {g : MatchingRuleGroup} {id : String},
      findMatchingRule order groups = some (g, id) → g ∈ groups
  | [], _, _, h => by simp [findMatchingRule] at h
  | g0 :: rest, g, id, h => by
    unfold findMatchingRule at h
    split at h
    · cases h; exact List.mem_cons_self _ _
    · exact List.mem_cons_of_mem _ (findMatchingRule_mem h)

theorem findMatchingRule_id {order : OrderData} :
    ∀ {groups : List MatchingRuleGroup} {g : MatchingRuleGroup} {id : String},
      findMatchingRule order groups = some (g, id) →
      id = createOrderIdentifier order
  | [], _, _, h => by simp [findMatchingRule] at h
  | g0 :: rest, g, id, h => by
    unfold findMatchingRule at h
    split at h
    · cases h; rfl
    · exact findMatchingRule_id h

/-- C6: the identifier function is invariant under leading/trailing
whitespace and letter-case changes of the four key fields: two orders whose
seller, product number, product name and option name agree after trimming
and lowercasing produce the identical identifier, whatever their quantity
and ancillary fields. -/
theorem createOrderIdentifier_insensitive (o1 o2 : OrderData)
    (hs : normalizeFieldValue o1.seller = normalizeFieldValue o2.seller)
    (hn : normalizeFieldValue o1.productNumber =
          normalizeFieldValue o2.productNumber)
    (hp : normalizeFieldValue o1.productName =
          normalizeFieldValue o2.productName)
    (ho : normalizeFieldValue o1.optionName =
          normalizeFieldValue o2.optionName) :
    createOrderIdentifier o1 = createOrderIdentifier o2 := by
  unfold createOrderIdentifier
  rw [hs, hn, hp, ho]

/-- Order record with every field blank or zero, the basis of the concrete
test inputs below. -/
def blankOrder : OrderData :=
  { seller := "", productNumber := "", productName := "", optionName := ""
    quantity := 0, paymentAmount := 0, settlementAmount := 0
    purchaseAmount := 0, weight := 0, stockLocation := "", boxSpec := "" }

def c6Order1 : OrderData :=
  { blankOrder with seller := "  StoreA ", productNumber := "100"
                    productName := "WIDGET", optionName := "Red"
                    quantity := 3, paymentAmount := 500, stockLocation := "A1" }

def c6Order2 : OrderData :=
  { blankOrder with seller := "storea", productNumber := " 100"
                    productName := "widget", optionName := " rEd "
                    quantity := 44, boxSpec := "B" }

/-- Witness for C6 at concrete inputs differing in whitespace, case,
quantity and ancillary fields. -/
theorem createOrderIdentifier_insensitive_witness :
    createOrderIdentifier c6Order1 = createOrderIdentifier c6Order2 :=
  createOrderIdentifier_insensitive c6Order1 c6Order2
    (by decide) (by decide) (by decide) (by decide)

/-- C3: the match lookup scans the groups in stored order and returns the
first group whose member list contains the order's identifier (paired with
that identifier); when the identifier belongs to several groups the
earliest wins, and when no group contains it the result is `none`. -/
theorem findMatchingRule_first_match_spec (order : OrderData)
    (groups : List MatchingRuleGroup) :
    (∀ g id, findMatchingRule order groups = some (g, id) →
        id = createOrderIdentifier order ∧
        createOrderIdentifier order ∈ g.rules ∧
        ∃ pre post, groups = pre ++ g :: post ∧
          ∀ g' ∈ pre, createOrderIdentifier order ∉ g'.rules) ∧
    (findMatchingRule order groups = none ↔
        ∀ g ∈ groups, createOrderIdentifier order ∉ g.rules) := by
  induction groups with
  | nil => simp [findMatchingRule]
  | cons g0 rest ih =>
    by_cases hc : createOrderIdentifier order ∈ g0.rules
    · have hfind : findMatchingRule order (g0 :: rest) =
          some (g0, createOrderIdentifier order) := by
        unfold findMatchingRule
        rw [if_pos (by simpa [List.contains] using hc)]
      constructor
      · intro g id h
        rw [hfind] at h
        cases h
        exact ⟨rfl, hc, [], rest, rfl, by simp⟩
      · rw [hfind]
        constructor
        · intro h; cases h
        · intro h
          exact absurd hc (h g0 (List.mem_cons_self _ _))
    · have hfind : findMatchingRule order (g0 :: rest) =
          findMatchingRule order rest := by
        unfold findMatchingRule
        rw [if_neg (by simpa [List.contains] using hc)]
        cases rest <;> simp [findMatchingRule]
      constructor
      · intro g id h
        rw [hfind] at h
        obtain ⟨hid, hmem, pre, post, hsplit, hpre⟩ := ih.1 g id h
        refine ⟨hid, hmem, g0 :: pre, post, by simp [hsplit], ?_⟩
        intro g' hg'
        rcases List.mem_cons.mp hg' with hg' | hg'
        · subst hg'; exact hc
        · exact hpre g' hg'
      · rw [hfind, ih.2]
        constructor
        · intro h g hg
          rcases List.mem_cons.mp hg with hg | hg
          · subst hg; exact hc
          · exact h g hg
        · intro h g hg
          exact h g (List.mem_cons_of_mem _ hg)

def c3GroupA : MatchingRuleGroup :=
  { productName := "A", stock := 0, quantityWeight := 1
    rules := ["x|||", "y|||"], ruleWeights := none, id := some "a" }

def c3GroupB : MatchingRuleGroup :=
  { productName := "B", stock := 0, quantityWeight := 1
    rules := ["x|||"], ruleWeights := none, id := some "b" }

def c3Order : OrderData := { blankOrder with seller := "X" }

/-- Witness for C3: an identifier belonging to both groups resolves to the
earlier group, and the returned identifier is the normalized one. -/
theorem findMatchingRule_first_match_spec_witness :
    (findMatchingRule c3Order [c3GroupA, c3GroupB] =
        some (c3GroupA, "x|||")) ∧
    "x|||" = createOrderIdentifier c3Order ∧
    createOrderIdentifier c3Order ∈ c3GroupA.rules := by
  have h := (findMatchingRule_first_match_spec c3Order [c3GroupA, c3GroupB]).1
    c3GroupA "x|||" (by decide)
  exact ⟨by decide, h.1, h.2.1⟩

/-- Weight resolution as the specification claim words it: return the
stored override value whenever the mapping contains the identifier (with a
non-positive stored value falling back to 1), otherwise the default weight
(falling back to 1 when unset or non-positive). Stated for comparison with
the implemented `resolveWeight`. -/
def resolveWeightClaimed (rule : MatchingRuleGroup) (ruleId : String) : Nat :=
  match ruleWeightsLookup rule.ruleWeights ruleId with
  | some w => if 0 < w then w else 1
  | none => if 0 < rule.quantityWeight then rule.quantityWeight else 1

def c4Group : MatchingRuleGroup :=
  { productName := "G", stock := 0, quantityWeight := 5, rules := ["x"]
    ruleWeights := some [("x", 0)], id := none }

/-- Counterexample for C4: with an override stored as 0 and default weight
5, the resolver returns the default weight 5 — neither the stored override
value (0) nor the claimed fallback 1. -/
theorem resolveWeight_claim_counterexample :
    ruleWeightsLookup c4Group.ruleWeights "x" = some 0 ∧
    resolveWeight c4Group "x" = 5 ∧
    resolveWeightClaimed c4Group "x" = 1 ∧
    resolveWeight c4Group "x" ≠ resolveWeightClaimed c4Group "x" ∧
    resolveWeight c4Group "x" ≠ 0 := by decide

/-- Weight resolution as amended: the override applies only when present
and positive; otherwise the default weight applies when positive; otherwise
the result is 1. -/
def resolveWeightAmended (rule : MatchingRuleGroup) (ruleId : String) : Nat :=
  match ruleWeightsLookup rule.ruleWeights ruleId with
  | some w =>
    if 0 < w then w
    else if 0 < rule.quantityWeight then rule.quantityWeight else 1
  | none => if 0 < rule.quantityWeight then rule.quantityWeight else 1

/-- C4 (amended): for every rule group and identifier the implemented
resolver returns the per-identifier override when the mapping contains the
identifier with a positive value, otherwise the group default weight when
positive, otherwise 1. -/
theorem resolveWeight_amended_spec (rule : MatchingRuleGroup)
    (ruleId : String) :
    resolveWeight rule ruleId = resolveWeightAmended rule ruleId := by
  unfold resolveWeight resolveWeightAmended natOr
  cases ruleWeightsLookup rule.ruleWeights ruleId <;>
    simp [Nat.pos_iff_ne_zero]

def c10Group : MatchingRuleGroup :=
  { productName := "H", stock := 0, quantityWeight := 3, rules := ["k"]
    ruleWeights := some [("k", 0)], id := none }

/-- C10: a per-identifier weight stored as 0 is treated as absent by the
truthiness test — the resolver falls back to the group default (or 1 when
that is also zero), never returns 0, and behaves exactly as if the override
mapping were absent; the detailed view displays the weight through the very
same computation. -/
theorem zero_weight_override_falls_back (rule : MatchingRuleGroup)
    (ruleId : String) :
    (ruleWeightsLookup rule.ruleWeights ruleId = some 0 →
      resolveWeight rule ruleId = natOr rule.quantityWeight 1 ∧
      resolveWeight rule ruleId =
        resolveWeight { rule with ruleWeights := none } ruleId ∧
      resolveWeight rule ruleId ≠ 0) ∧
    displayWeight rule ruleId = resolveWeight rule ruleId := by
  refine ⟨fun h => ?_, rfl⟩
  have h1 : resolveWeight rule ruleId = natOr rule.quantityWeight 1 := by
    unfold resolveWeight
    rw [h]
    simp
  have h2 : resolveWeight { rule with ruleWeights := none } ruleId =
      natOr rule.quantityWeight 1 := by
    unfold resolveWeight
    rfl
  refine ⟨h1, by rw [h1, h2], ?_⟩
  rw [h1]
  unfold natOr
  split <;> simp_all

/-- Witness for C10 at a concrete group whose override for "k" is stored
as 0 and whose default weight is 3. -/
theorem zero_weight_override_falls_back_witness :
    resolveWeight c10Group "k" = natOr c10Group.quantityWeight 1 ∧
    resolveWeight c10Group "k" =
      resolveWeight { c10Group with ruleWeights := none } "k" ∧
    resolveWeight c10Group "k" ≠ 0 ∧
    displayWeight c10Group "k" = resolveWeight c10Group "k" :=
  ⟨((zero_weight_override_falls_back c10Group "k").1 (by decide)).1,
   ((zero_weight_override_falls_back c10Group "k").1 (by decide)).2.1,
   ((zero_weight_override_falls_back c10Group "k").1 (by decide)).2.2,
   (zero_weight_override_falls_back c10Group "k").2⟩

/-- C9: backup loading fails for every parsed file whose `version` field is
not the string "v1" or whose `rules` field is not an array, and on any such
failure the backup-upload handler leaves the current rule set unchanged. -/
theorem loadBackup_invalid_keeps_rules (file : JsonValue)
    (hbad : jsonGetField file "version" ≠ some (JsonValue.str "v1") ∨
            ∀ elems, jsonGetField file "rules" ≠ some (JsonValue.arr elems)) :
    (∃ msg, loadBackup file = Except.error msg) ∧
    ∀ decodeRule freshId currentRules,
      handleBackupUpload decodeRule freshId currentRules file =
        currentRules := by
  have herr : ∃ msg, loadBackup file = Except.error msg := by
    cases hr : jsonGetField file "rules" with
    | none => exact ⟨"백업 파일을 읽는데 실패했습니다.", by simp only [loadBackup, hr]⟩
    | some v =>
      cases v with
      | arr elems =>
        rcases hbad with hv | hne
        · cases hvv : jsonGetField file "version" with
          | none => exact ⟨"백업 파일을 읽는데 실패했습니다.", by simp only [loadBackup, hr, hvv]⟩
          | some w =>
            cases w with
            | str s =>
              have hs : ¬ s = "v1" := by
                intro h
                exact hv (by rw [hvv, h])
              exact ⟨"백업 파일을 읽는데 실패했습니다.", by simp only [loadBackup, hr, hvv]; rw [if_neg hs]⟩
            | null => exact ⟨"백업 파일을 읽는데 실패했습니다.", by simp only [loadBackup, hr, hvv]⟩
            | bool b => exact ⟨"백업 파일을 읽는데 실패했습니다.", by simp only [loadBackup, hr, hvv]⟩
            | num n => exact ⟨"백업 파일을 읽는데 실패했습니다.", by simp only [loadBackup, hr, hvv]⟩
            | arr l => exact ⟨"백업 파일을 읽는데 실패했습니다.", by simp only [loadBackup, hr, hvv]⟩
            | obj l => exact ⟨"백업 파일을 읽는데 실패했습니다.", by simp only [loadBackup, hr, hvv]⟩
        · exact absurd hr (hne elems)
      | null => exact ⟨"백업 파일을 읽는데 실패했습니다.", by simp only [loadBackup, hr]⟩
      | bool b => exact ⟨"백업 파일을 읽는데 실패했습니다.", by simp only [loadBackup, hr]⟩
      | num n => exact ⟨"백업 파일을 읽는데 실패했습니다.", by simp only [loadBackup, hr]⟩
      | str s => exact ⟨"백업 파일을 읽는데 실패했습니다.", by simp only [loadBackup, hr]⟩
      | obj l => exact ⟨"백업 파일을 읽는데 실패했습니다.", by simp only [loadBackup, hr]⟩
  refine ⟨herr, ?_⟩
  intro decodeRule freshId currentRules
  obtain ⟨msg, hm⟩ := herr
  unfold handleBackupUpload
  rw [hm]

def c9File : JsonValue :=
  JsonValue.obj [("version", JsonValue.str "v2"),
                 ("rules", JsonValue.arr [])]

def c9Rule : MatchingRuleGroup :=
  { productName := "kept", stock := 0, quantityWeight := 1
    rules := ["r|||"], ruleWeights := none, id := some "i" }

/-- Witness for C9: a backup file with version "v2" is rejected and the
current rules survive the upload attempt unchanged. -/
theorem loadBackup_invalid_keeps_rules_witness :
    (∃ msg, loadBackup c9File = Except.error msg) ∧
    handleBackupUpload (fun _ => c9Rule) (fun _ => "fresh") [c9Rule] c9File =
      [c9Rule] := by
  have hbad : jsonGetField c9File "version" ≠ some (JsonValue.str "v1") ∨
      ∀ elems, jsonGetField c9File "rules" ≠ some (JsonValue.arr elems) := by
    left
    intro h
    rw [show jsonGetField c9File "version" = some (JsonValue.str "v2")
          from rfl] at h
    injection h with h1
    injection h1 with h2
    exact absurd h2 (by decide)
  exact ⟨(loadBackup_invalid_keeps_rules c9File hbad).1,
         (loadBackup_invalid_keeps_rules c9File hbad).2 _ _ _⟩

/-- Constant comparator used to instantiate the abstract locale comparison
at concrete inputs (every pair compares equal; for outputs with at most one
row per partition the sort result does not depend on the comparator). -/
def lcEq : String → String → Ordering := fun _ _ => Ordering.eq

def sec8Order1 : OrderData :=
  { blankOrder with seller := "StoreA", productNumber := "100"
                    productName := "Widget", optionName := "Red"
                    quantity := 3 }

def sec8Order2 : OrderData :=
  { blankOrder with seller := "storea", productNumber := "100"
                    productName := "widget", optionName := "red"
                    quantity := 2 }

def ruleR1 : MatchingRuleGroup :=
  { productName := "Widgets", stock := 0, quantityWeight := 1
    rules := ["storea|100|widget|red"]
    ruleWeights := some [("storea|100|widget|red", 2)]
    id := some "r1" }

/-- C5: in the literal §8 scenario the aggregated Widgets row carries
weightedQuantity 10 as specified, but the consumer-derived original
quantity evaluates to round(10/1) = 10, not the specified round(10/2) = 5:
the matched row retains no `originalOrder`, so `getMatchingWeight` never
consults the per-identifier override 2 and falls back to the group default
weight 1. -/
theorem getOriginalQuantity_sec8_divergence :
    (processOrders lcEq [sec8Order1, sec8Order2] [ruleR1]).map
        (fun r => (r.printName, r.isMatched, r.orderCount, r.quantity,
                   getMatchingWeight [ruleR1] r,
                   getOriginalQuantity [ruleR1] r)) =
      [("Widgets", true, 2, 10, 1, 10)] ∧
    roundDiv 10 2 = 5 ∧
    getOriginalQuantity [ruleR1]
        ((processOrders lcEq [sec8Order1, sec8Order2] [ruleR1]).headD
          (newMatchedRow "" ruleR1)) ≠
      roundDiv 10 2 := by decide

/-! ### Lemmas about the accumulator dictionary -/

theorem findRow_upsertRow (key key' : String) (row : ProcessedData) :
    ∀ m : List (String × ProcessedData),
      findRow (upsertRow m key row) key' =
        if key = key' then some row else findRow m key'
  | [] => by
    by_cases h : key = key' <;> simp [upsertRow, findRow, h]
  | (k, r) :: rest => by
    by_cases hk : k = key
    · subst hk
      by_cases h : k = key' <;> simp [upsertRow, findRow, h]
    · by_cases h : k = key'
      · subst h
        have : ¬ key = k := fun hh => hk hh.symm
        simp [upsertRow, findRow, hk, this]
      · simp [upsertRow, findRow, hk, h, findRow_upsertRow key key' row rest]

theorem findRow_none_iff (key : String) :
    ∀ m : List (String × ProcessedData),
      findRow m key = none ↔ key ∉ m.map Prod.fst
  | [] => by simp [findRow]
  | (k, r) :: rest => by
    by_cases h : k = key
    · subst h; simp [findRow]
    · simp [findRow, h, findRow_none_iff key rest, Ne.symm h]

theorem findRow_of_nodup_mem (key : String) (r : ProcessedData) :
    ∀ m : List (String × ProcessedData),
      (m.map Prod.fst).Nodup → (key, r) ∈ m → findRow m key = some r
  | [], _, h => by simp at h
  | (k, r') :: rest, hnd, hm => by
    have hnd' : k ∉ rest.map Prod.fst ∧ (rest.map Prod.fst).Nodup := by
      simpa [List.nodup_cons] using hnd
    rcases List.mem_cons.mp hm with h | h
    · cases h
      simp [findRow]
    · have hk : k ≠ key := by
        intro hkk
        subst hkk
        exact hnd'.1 (List.mem_map_of_mem Prod.fst h)
      simp [findRow, hk]
      exact findRow_of_nodup_mem key r rest hnd'.2 h

theorem upsertRow_keys_some (key : String) (row : ProcessedData) :
    ∀ m : List (String × ProcessedData), (findRow m key).isSome →
      (upsertRow m key row).map Prod.fst = m.map Prod.fst
  | [], h => by simp [findRow] at h
  | (k, r) :: rest, h => by
    by_cases hk : k = key
    · simp [upsertRow, hk]
    · have : (findRow rest key).isSome := by simpa [findRow, hk] using h
      simp [upsertRow, hk, upsertRow_keys_some key row rest this]

theorem upsertRow_keys_none (key : String) (row : ProcessedData) :
    ∀ m : List (String × ProcessedData), findRow m key = none →
      (upsertRow m key row).map Prod.fst = m.map Prod.fst ++ [key]
  | [], _ => by simp [upsertRow]
  | (k, r) :: rest, h => by
    have hk : ¬ k = key := by
      intro hkk
      simp [findRow, hkk] at h
    have hrest : findRow rest key = none := by simpa [findRow, hk] using h
    simp [upsertRow, hk, upsertRow_keys_none key row rest hrest]

theorem upsertRow_sum_none (key : String) (row : ProcessedData) :
    ∀ m : List (String × ProcessedData), findRow m key = none →
      ((upsertRow m key row).map (fun p => p.2.orderCount)).sum =
        (m.map (fun p => p.2.orderCount)).sum + row.orderCount
  | [], _ => by simp [upsertRow]
  | (k, r) :: rest, h => by
    have hk : ¬ k = key := by
      intro hkk
      simp [findRow, hkk] at h
    have hrest : findRow rest key = none := by simpa [findRow, hk] using h
    simp [upsertRow, hk, upsertRow_sum_none key row rest hrest]
    omega

theorem upsertRow_sum_some (key : String) (row r : ProcessedData) :
    ∀ m : List (String × ProcessedData), findRow m key = some r →
      ((upsertRow m key row).map (fun p => p.2.orderCount)).sum + r.orderCount =
        (m.map (fun p => p.2.orderCount)).sum + row.orderCount
  | [], h => by simp [findRow] at h
  | (k, r') :: rest, h => by
    by_cases hk : k = key
    · have hr : r' = r := by simpa [findRow, hk] using h
      subst hr
      simp [upsertRow, hk]
      omega
    · have hrest : findRow rest key = some r := by simpa [findRow, hk] using h
      have := upsertRow_sum_some key row r rest hrest
      simp [upsertRow, hk]
      omega

/-! ### Lemmas about one aggregation step -/

theorem processOrder_matched (gs : List MatchingRuleGroup)
    (m : List (String × ProcessedData)) (o : OrderData)
    (rule : MatchingRuleGroup) (ruleId : String)
    (h : findMatchingRule o gs = some (rule, ruleId)) :
    processOrder gs m o = upsertRow m rule.productName
      (addMatchedOrder
        ((findRow m rule.productName).getD
          (newMatchedRow rule.productName rule))
        o (resolveWeight rule ruleId)) := by
  unfold processOrder
  rw [h]

theorem processOrder_unmatched (gs : List MatchingRuleGroup)
    (m : List (String × ProcessedData)) (o : OrderData)
    (h : findMatchingRule o gs = none) :
    processOrder gs m o =
      upsertRow m (unmatchedTag ++ createOrderIdentifier o)
        (addUnmatchedOrder
          ((findRow m (unmatchedTag ++ createOrderIdentifier o)).getD
            (newUnmatchedRow (unmatchedTag ++ createOrderIdentifier o) o))
          o) := by
  unfold processOrder
  rw [h]

theorem rowKey_matched (gs : List MatchingRuleGroup) (o : OrderData)
    (rule : MatchingRuleGroup) (ruleId : String)
    (h : findMatchingRule o gs = some (rule, ruleId)) :
    rowKey gs o = rule.productName := by
  unfold rowKey
  rw [h]

theorem rowKey_unmatched (gs : List MatchingRuleGroup) (o : OrderData)
    (h : findMatchingRule o gs = none) :
    rowKey gs o = unmatchedTag ++ createOrderIdentifier o := by
  unfold rowKey
  rw [h]

theorem contribQty_matched (gs : List MatchingRuleGroup) (o : OrderData)
    (rule : MatchingRuleGroup) (ruleId : String)
    (h : findMatchingRule o gs = some (rule, ruleId)) :
    contribQty gs o = o.quantity * resolveWeight rule ruleId := by
  unfold contribQty
  rw [h]

theorem contribQty_unmatched (gs : List MatchingRuleGroup) (o : OrderData)
    (h : findMatchingRule o gs = none) :
    contribQty gs o = o.quantity := by
  unfold contribQty
  rw [h]

theorem buildRows_append_singleton (orders : List OrderData) (o : OrderData)
    (gs : List MatchingRuleGroup) :
    buildRows (orders ++ [o]) gs = processOrder gs (buildRows orders gs) o := by
  simp [buildRows, List.foldl_append]

theorem buildRows_keys_nodup (gs : List MatchingRuleGroup)
    (orders : List OrderData) :
    ((buildRows orders gs).map Prod.fst).Nodup := by
  induction orders using List.reverseRecOn with
  | nil => simp [buildRows]
  | append_singleton orders o ih =>
    rw [buildRows_append_singleton]
    have step : ∀ key row, ((upsertRow (buildRows orders gs) key row).map
        Prod.fst).Nodup := by
      intro key row
      cases hfr : findRow (buildRows orders gs) key with
      | some r =>
        rw [upsertRow_keys_some key row _ (by simp [hfr])]
        exact ih
      | none =>
        rw [upsertRow_keys_none key row _ hfr]
        have hnotin : key ∉ (buildRows orders gs).map Prod.fst :=
          (findRow_none_iff key _).mp hfr
        simp [List.nodup_append, ih, hnotin]
    cases hfm : findMatchingRule o gs with
    | some pr =>
      obtain ⟨rule, ruleId⟩ := pr
      rw [processOrder_matched gs _ o rule ruleId hfm]
      exact step _ _
    | none =>
      rw [processOrder_unmatched gs _ o hfm]
      exact step _ _

theorem buildRows_orderCount_sum (gs : List MatchingRuleGroup)
    (orders : List OrderData) :
    ((buildRows orders gs).map (fun p => p.2.orderCount)).sum =
      orders.length := by
  induction orders using List.reverseRecOn with
  | nil => simp [buildRows]
  | append_singleton orders o ih =>
    rw [buildRows_append_singleton, List.length_append]
    simp only [List.length_singleton]
    cases hfm : findMatchingRule o gs with
    | some pr =>
      obtain ⟨rule, ruleId⟩ := pr
      rw [processOrder_matched gs _ o rule ruleId hfm]
      cases hfr : findRow (buildRows orders gs) rule.productName with
      | some r =>
        rw [Option.getD_some]
        have h2 := upsertRow_sum_some rule.productName
          (addMatchedOrder r o (resolveWeight rule ruleId)) r _ hfr
        have h3 : (addMatchedOrder r o (resolveWeight rule ruleId)).orderCount =
            r.orderCount + 1 := by simp [addMatchedOrder]
        omega
      | none =>
        rw [Option.getD_none, upsertRow_sum_none _ _ _ hfr]
        have h3 : (addMatchedOrder (newMatchedRow rule.productName rule) o
            (resolveWeight rule ruleId)).orderCount = 1 := by
          simp [addMatchedOrder, newMatchedRow]
        omega
    | none =>
      rw [processOrder_unmatched gs _ o hfm]
      cases hfr : findRow (buildRows orders gs)
          (unmatchedTag ++ createOrderIdentifier o) with
      | some r =>
        rw [Option.getD_some]
        have h2 := upsertRow_sum_some (unmatchedTag ++ createOrderIdentifier o)
          (addUnmatchedOrder r o) r _ hfr
        have h3 : (addUnmatchedOrder r o).orderCount = r.orderCount + 1 := by
          simp [addUnmatchedOrder]
        omega
      | none =>
        rw [Option.getD_none, upsertRow_sum_none _ _ _ hfr]
        have h3 : (addUnmatchedOrder
            (newUnmatchedRow (unmatchedTag ++ createOrderIdentifier o) o)
            o).orderCount = 1 := by
          simp [addUnmatchedOrder, newUnmatchedRow]
        omega

/-- Row written by one aggregation step, as a function of the previously
stored row at the order's key (a proof-structuring view of `processOrder`). -/
def stepRow (gs : List MatchingRuleGroup) (existing : Option ProcessedData)
    (o : OrderData) : ProcessedData :=
  match findMatchingRule o gs with
  | some (rule, ruleId) =>
    addMatchedOrder (existing.getD (newMatchedRow rule.productName rule)) o
      (resolveWeight rule ruleId)
  | none =>
    addUnmatchedOrder
      (existing.getD
        (newUnmatchedRow (unmatchedTag ++ createOrderIdentifier o) o)) o

theorem processOrder_eq_stepRow (gs : List MatchingRuleGroup)
    (m : List (String × ProcessedData)) (o : OrderData) :
    processOrder gs m o =
      upsertRow m (rowKey gs o) (stepRow gs (findRow m (rowKey gs o)) o) := by
  cases hfm : findMatchingRule o gs with
  | some pr =>
    obtain ⟨rule, ruleId⟩ := pr
    rw [processOrder_matched gs m o rule ruleId hfm,
      rowKey_matched gs o rule ruleId hfm]
    unfold stepRow
    rw [hfm]
  | none =>
    rw [processOrder_unmatched gs m o hfm, rowKey_unmatched gs o hfm]
    unfold stepRow
    rw [hfm]

theorem stepRow_some_quantity (gs : List MatchingRuleGroup)
    (r : ProcessedData) (o : OrderData) :
    (stepRow gs (some r) o).quantity = r.quantity + contribQty gs o := by
  cases hfm : findMatchingRule o gs with
  | some pr =>
    obtain ⟨rule, ruleId⟩ := pr
    simp [stepRow, hfm, addMatchedOrder, contribQty_matched gs o rule ruleId hfm]
  | none =>
    simp [stepRow, hfm, addUnmatchedOrder, contribQty_unmatched gs o hfm]

theorem stepRow_none_quantity (gs : List MatchingRuleGroup) (o : OrderData) :
    (stepRow gs none o).quantity = contribQty gs o := by
  cases hfm : findMatchingRule o gs with
  | some pr =>
    obtain ⟨rule, ruleId⟩ := pr
    simp [stepRow, hfm, addMatchedOrder, newMatchedRow,
      contribQty_matched gs o rule ruleId hfm]
  | none =>
    simp [stepRow, hfm, addUnmatchedOrder, newUnmatchedRow,
      contribQty_unmatched gs o hfm]

theorem stepRow_some_orderCount (gs : List MatchingRuleGroup)
    (r : ProcessedData) (o : OrderData) :
    (stepRow gs (some r) o).orderCount = r.orderCount + 1 := by
  cases hfm : findMatchingRule o gs with
  | some pr =>
    obtain ⟨rule, ruleId⟩ := pr
    simp [stepRow, hfm, addMatchedOrder]
  | none => simp [stepRow, hfm, addUnmatchedOrder]

theorem stepRow_none_orderCount (gs : List MatchingRuleGroup) (o : OrderData) :
    (stepRow gs none o).orderCount = 1 := by
  cases hfm : findMatchingRule o gs with
  | some pr =>
    obtain ⟨rule, ruleId⟩ := pr
    simp [stepRow, hfm, addMatchedOrder, newMatchedRow]
  | none => simp [stepRow, hfm, addUnmatchedOrder, newUnmatchedRow]

theorem stepRow_some_isMatched (gs : List MatchingRuleGroup)
    (r : ProcessedData) (o : OrderData) :
    (stepRow gs (some r) o).isMatched = r.isMatched := by
  cases hfm : findMatchingRule o gs with
  | some pr =>
    obtain ⟨rule, ruleId⟩ := pr
    simp [stepRow, hfm, addMatchedOrder]
  | none => simp [stepRow, hfm, addUnmatchedOrder]

theorem stepRow_none_isMatched (gs : List MatchingRuleGroup) (o : OrderData) :
    (stepRow gs none o).isMatched = (findMatchingRule o gs).isSome := by
  cases hfm : findMatchingRule o gs with
  | some pr =>
    obtain ⟨rule, ruleId⟩ := pr
    simp [stepRow, hfm, addMatchedOrder, newMatchedRow]
  | none => simp [stepRow, hfm, addUnmatchedOrder, newUnmatchedRow]

theorem stepRow_some_printName (gs : List MatchingRuleGroup)
    (r : ProcessedData) (o : OrderData) :
    (stepRow gs (some r) o).printName = r.printName := by
  cases hfm : findMatchingRule o gs with
  | some pr =>
    obtain ⟨rule, ruleId⟩ := pr
    simp [stepRow, hfm, addMatchedOrder]
  | none => simp [stepRow, hfm, addUnmatchedOrder]

theorem stepRow_none_printName (gs : List MatchingRuleGroup) (o : OrderData) :
    (stepRow gs none o).isMatched = true →
      (stepRow gs none o).printName = rowKey gs o := by
  cases hfm : findMatchingRule o gs with
  | some pr =>
    obtain ⟨rule, ruleId⟩ := pr
    intro _
    simp [stepRow, hfm, addMatchedOrder, newMatchedRow,
      rowKey_matched gs o rule ruleId hfm]
  | none =>
    intro h
    rw [stepRow_none_isMatched, hfm] at h
    simp at h

theorem buildRows_key_spec (gs : List MatchingRuleGroup)
    (orders : List OrderData) :
    (∀ key r, findRow (buildRows orders gs) key = some r →
        r.quantity =
          ((orders.filter (fun o => rowKey gs o = key)).map
            (contribQty gs)).sum ∧
        r.orderCount =
          (orders.filter (fun o => rowKey gs o = key)).length ∧
        (r.isMatched = true → r.printName = key) ∧
        ∃ o0, o0 ∈ orders ∧ rowKey gs o0 = key ∧
          r.isMatched = (findMatchingRule o0 gs).isSome) ∧
    (∀ key, findRow (buildRows orders gs) key = none →
        orders.filter (fun o => rowKey gs o = key) = []) := by
  induction orders using List.reverseRecOn with
  | nil =>
    constructor
    · intro key r h
      simp [buildRows, findRow] at h
    · intro key h
      simp
  | append_singleton orders o ih =>
    rw [buildRows_append_singleton, processOrder_eq_stepRow]
    constructor
    · intro key r h
      rw [findRow_upsertRow] at h
      by_cases hkey : rowKey gs o = key
      · subst hkey
        rw [if_pos rfl] at h
        have hr : r = stepRow gs (findRow (buildRows orders gs)
            (rowKey gs o)) o := by
          injection h with h
          exact h.symm
        subst hr
        have hfil : (orders ++ [o]).filter
            (fun o' => rowKey gs o' = rowKey gs o) =
            orders.filter (fun o' => rowKey gs o' = rowKey gs o) ++ [o] := by
          simp [List.filter_append]
        rw [hfil]
        cases hfr : findRow (buildRows orders gs) (rowKey gs o) with
        | some rbase =>
          obtain ⟨hq, hc, hpn, o0, ho0, hko0, him⟩ :=
            ih.1 (rowKey gs o) rbase hfr
          refine ⟨?_, ?_, ?_, o0, List.mem_append_left _ ho0, hko0, ?_⟩
          · rw [stepRow_some_quantity, hq]
            simp
          · rw [stepRow_some_orderCount, hc]
            simp
          · intro hmm
            rw [stepRow_some_printName]
            exact hpn (by rw [← stepRow_some_isMatched gs rbase o]; exact hmm)
          · rw [stepRow_some_isMatched]
            exact him
        | none =>
          have hfil0 := ih.2 (rowKey gs o) hfr
          rw [hfil0]
          refine ⟨?_, ?_, stepRow_none_printName gs o,
            o, List.mem_append_right _ (by simp), rfl, ?_⟩
          · rw [stepRow_none_quantity]
            simp
          · rw [stepRow_none_orderCount]
            simp
          · exact stepRow_none_isMatched gs o
      · rw [if_neg hkey] at h
        obtain ⟨hq, hc, hpn, o0, ho0, hko0, him⟩ := ih.1 key r h
        have hfil : (orders ++ [o]).filter (fun o' => rowKey gs o' = key) =
            orders.filter (fun o' => rowKey gs o' = key) := by
          simp [List.filter_append, hkey]
        rw [hfil]
        exact ⟨hq, hc, hpn, o0, List.mem_append_left _ ho0, hko0, him⟩
    · intro key h
      rw [findRow_upsertRow] at h
      by_cases hkey : rowKey gs o = key
      · rw [if_pos hkey] at h
        cases h
      · rw [if_neg hkey] at h
        have hfil : (orders ++ [o]).filter (fun o' => rowKey gs o' = key) =
            orders.filter (fun o' => rowKey gs o' = key) := by
          simp [List.filter_append, hkey]
        rw [hfil]
        exact ih.2 key h

/-- C2: every input order is folded into exactly one accumulator row (its
key occurs exactly once among the row keys), and the orderCount fields of
the final output rows sum to the number of input orders. -/
theorem processOrders_orderCount_partition_total
    (lc : String → String → Ordering) (orders : List OrderData)
    (gs : List MatchingRuleGroup) :
    ((processOrders lc orders gs).map (fun r => r.orderCount)).sum =
      orders.length ∧
    ∀ o ∈ orders,
      ((buildRows orders gs).map Prod.fst).count (rowKey gs o) = 1 := by
  constructor
  · have hperm : List.Perm (processOrders lc orders gs)
        ((buildRows orders gs).map Prod.snd) := List.perm_insertionSort _ _
    have h1 : List.Perm
        ((processOrders lc orders gs).map (fun r => r.orderCount))
        (((buildRows orders gs).map Prod.snd).map (fun r => r.orderCount)) :=
      hperm.map _
    rw [List.Perm.sum_eq h1, ← buildRows_orderCount_sum gs orders]
    rw [List.map_map]
    rfl
  · intro o ho
    have hmem : rowKey gs o ∈ (buildRows orders gs).map Prod.fst := by
      by_contra hnot
      have hnone : findRow (buildRows orders gs) (rowKey gs o) = none :=
        (findRow_none_iff _ _).mpr hnot
      have hfil := (buildRows_key_spec gs orders).2 _ hnone
      have homem : o ∈ orders.filter (fun p => rowKey gs p = rowKey gs o) :=
        List.mem_filter.mpr ⟨ho, by simp⟩
      rw [hfil] at homem
      simp at homem
    exact List.count_eq_one_of_mem (buildRows_keys_nodup gs orders) hmem

def c2Order3 : OrderData :=
  { blankOrder with seller := "StoreB", productNumber := "200"
                    productName := "Gadget", quantity := 5 }

def c2Orders : List OrderData := [sec8Order1, sec8Order2, c2Order3]

/-- Witness for C2 on the §8 scenario inputs. -/
theorem processOrders_orderCount_partition_total_witness :
    ((processOrders lcEq c2Orders [ruleR1]).map (fun r => r.orderCount)).sum =
      c2Orders.length ∧
    ((buildRows c2Orders [ruleR1]).map Prod.fst).count
      (rowKey [ruleR1] sec8Order1) = 1 :=
  ⟨(processOrders_orderCount_partition_total lcEq c2Orders [ruleR1]).1,
   (processOrders_orderCount_partition_total lcEq c2Orders [ruleR1]).2
     sec8Order1 (by decide)⟩

theorem resolvedWeightOf_matched (gs : List MatchingRuleGroup)
    (o : OrderData) (rule : MatchingRuleGroup) (ruleId : String)
    (h : findMatchingRule o gs = some (rule, ruleId)) :
    resolvedWeightOf gs o = resolveWeight rule ruleId := by
  unfold resolvedWeightOf
  rw [h]

/-- C1 (amended): provided no rule group's targetName coincides with the
tagged unmatched key of any input order (so that a Matched accumulator row
can never absorb an unmatched order), every Matched output row has all its
contributors matched and its quantity equal to the sum over its
contributing orders of the order quantity times the weight the engine
resolves for that order. -/
theorem processOrders_matched_row_weighted_sum
    (lc : String → String → Ordering) (orders : List OrderData)
    (gs : List MatchingRuleGroup)
    (hnc : ∀ g ∈ gs, ∀ o ∈ orders,
        g.productName ≠ unmatchedTag ++ createOrderIdentifier o)
    (r : ProcessedData) (hr : r ∈ processOrders lc orders gs)
    (hm : r.isMatched = true) :
    (∀ o ∈ orders.filter (fun o => rowKey gs o = r.printName),
        (findMatchingRule o gs).isSome = true) ∧
    r.quantity = ((orders.filter (fun o => rowKey gs o = r.printName)).map
        (fun o => o.quantity * resolvedWeightOf gs o)).sum := by
  have hr2 : r ∈ (buildRows orders gs).map Prod.snd :=
    (List.perm_insertionSort _ _).mem_iff.mp hr
  obtain ⟨p, hp, hpr⟩ := List.mem_map.mp hr2
  obtain ⟨k, r2⟩ := p
  have hr2eq : r2 = r := hpr
  subst hr2eq
  have hfind : findRow (buildRows orders gs) k = some r2 :=
    findRow_of_nodup_mem k r2 _ (buildRows_keys_nodup gs orders) hp
  obtain ⟨hq, hc, hpn, o0, ho0, hko0, him⟩ :=
    (buildRows_key_spec gs orders).1 k r2 hfind
  have hkey : k = r2.printName := (hpn hm).symm
  subst hkey
  have ho0some : (findMatchingRule o0 gs).isSome = true := by
    rw [← him, hm]
  obtain ⟨pr0, hfm0⟩ := Option.isSome_iff_exists.mp ho0some
  obtain ⟨g0, id0⟩ := pr0
  have hg0 : g0 ∈ gs := findMatchingRule_mem hfm0
  have hk0 : g0.productName = r2.printName := by
    rw [← rowKey_matched gs o0 g0 id0 hfm0, hko0]
  have hall : ∀ o ∈ orders.filter (fun o => rowKey gs o = r2.printName),
      (findMatchingRule o gs).isSome = true := by
    intro o1 h1
    obtain ⟨ho1, hk1b⟩ := List.mem_filter.mp h1
    have hk1 : rowKey gs o1 = r2.printName := by simpa using hk1b
    cases hfm1 : findMatchingRule o1 gs with
    | some pr => rfl
    | none =>
      rw [rowKey_unmatched gs o1 hfm1] at hk1
      exact absurd (hk0.trans hk1.symm) (hnc g0 hg0 o1 ho1)
  refine ⟨hall, ?_⟩
  rw [hq]
  congr 1
  apply List.map_congr_left
  intro o1 h1
  obtain ⟨pr1, hfm1⟩ := Option.isSome_iff_exists.mp (hall o1 h1)
  obtain ⟨g1, id1⟩ := pr1
  rw [contribQty_matched gs o1 g1 id1 hfm1,
    resolvedWeightOf_matched gs o1 g1 id1 hfm1]

def c1Order1 : OrderData := { blankOrder with seller := "b", quantity := 3 }

def c1Order2 : OrderData := { blankOrder with seller := "a", quantity := 5 }

def c1Rule : MatchingRuleGroup :=
  { productName := "미매칭-a|||", stock := 0, quantityWeight := 2
    rules := ["b|||"], ruleWeights := none, id := some "r" }

/-- Counterexample for C1 as stated: a rule group whose targetName equals
the tagged unmatched key "미매칭-a|||" makes the unmatched order (seller
"a", quantity 5) fold into the Matched row of the matched order (seller
"b", quantity 3, weight 2). The Matched row then carries quantity
6 + 5 = 11, which is neither the weighted sum over all its contributors
(6 + 10 = 16) nor the weighted sum over its matched contributors (6). -/
theorem processOrders_key_collision_counterexample :
    (processOrders lcEq [c1Order1, c1Order2] [c1Rule]).map
        (fun r => (r.isMatched, r.printName, r.quantity)) =
      [(true, unmatchedTag ++ "a|||", 11)] ∧
    ([c1Order1, c1Order2].filter
        (fun o => rowKey [c1Rule] o = unmatchedTag ++ "a|||")).map
      (fun o => o.quantity * resolveWeight c1Rule (createOrderIdentifier o)) =
      [6, 10] ∧
    ([c1Order1, c1Order2].filter
        (fun o => (findMatchingRule o [c1Rule]).isSome &&
          decide (rowKey [c1Rule] o = unmatchedTag ++ "a|||"))).map
      (fun o => o.quantity * resolvedWeightOf [c1Rule] o) = [6] ∧
    (11 : Nat) ≠ 6 + 10 ∧ (11 : Nat) ≠ 6 := by decide

def c1wRow : ProcessedData :=
  (processOrders lcEq c2Orders [ruleR1]).headD (newMatchedRow "" ruleR1)

/-- Witness for C1 (amended) on the §8 scenario: the Widgets row of the
sorted output satisfies the weighted-sum equation. -/
theorem processOrders_matched_row_weighted_sum_witness :
    c1wRow.quantity = ((c2Orders.filter
        (fun o => rowKey [ruleR1] o = c1wRow.printName)).map
      (fun o => o.quantity * resolvedWeightOf [ruleR1] o)).sum :=
  (processOrders_matched_row_weighted_sum lcEq c2Orders [ruleR1]
    (by decide) c1wRow (by decide) (by decide)).2

/-- C7: with respect to any comparison `lc` that is transitive and total on
its non-gt relation (as a locale comparison is), every pair of output rows
in order satisfies: an unmatched row never precedes a matched one, and rows
of the same partition are in non-descending `printName` order under `lc`. -/
theorem processOrders_sorted_partitioned (lc : String → String → Ordering)
    (htrans : ∀ a b c : String, lc a b ≠ Ordering.gt →
      lc b c ≠ Ordering.gt → lc a c ≠ Ordering.gt)
    (htotal : ∀ a b : String, lc a b ≠ Ordering.gt ∨ lc b a ≠ Ordering.gt)
    (orders : List OrderData) (gs : List MatchingRuleGroup) :
    (processOrders lc orders gs).Pairwise (fun a b =>
      (b.isMatched = true → a.isMatched = true) ∧
      (a.isMatched = b.isMatched →
        lc a.printName b.printName ≠ Ordering.gt)) := by
  haveI hto : IsTotal ProcessedData (rowCompareLE lc) := by
    constructor
    intro a b
    unfold rowCompareLE
    cases ha : a.isMatched <;> cases hb : b.isMatched <;>
      simp [ha, hb] <;> exact htotal _ _
  haveI htr : IsTrans ProcessedData (rowCompareLE lc) := by
    constructor
    intro a b c hab hbc
    unfold rowCompareLE at hab hbc ⊢
    cases ha : a.isMatched <;> cases hb : b.isMatched <;>
      cases hc2 : c.isMatched <;>
      simp_all <;> exact htrans _ _ _ hab hbc
  have hs : List.Sorted (rowCompareLE lc)
      (((buildRows orders gs).map Prod.snd).insertionSort
        (rowCompareLE lc)) :=
    List.sorted_insertionSort (rowCompareLE lc) _
  have hs2 : (processOrders lc orders gs).Pairwise (rowCompareLE lc) := hs
  refine hs2.imp ?_
  intro a b hab
  unfold rowCompareLE at hab
  cases ha : a.isMatched <;> cases hb : b.isMatched <;> simp_all

/-- Witness for C7, instantiated at the everywhere-equal comparator on the
§8 scenario inputs (one matched and one unmatched row). -/
theorem processOrders_sorted_partitioned_witness :
    (processOrders lcEq c2Orders [ruleR1]).Pairwise (fun a b =>
      (b.isMatched = true → a.isMatched = true) ∧
      (a.isMatched = b.isMatched →
        lcEq a.printName b.printName ≠ Ordering.gt)) :=
  processOrders_sorted_partitioned lcEq
    (fun _ _ _ _ _ h => Ordering.noConfusion h)
    (fun _ _ => Or.inl (fun h => Ordering.noConfusion h))
    c2Orders [ruleR1]

theorem mergeIntoGroup_productName (g n : MatchingRuleGroup) :
    (mergeIntoGroup g n).productName = g.productName := by
  unfold mergeIntoGroup
  dsimp only
  split
  · split
    · split <;> rfl
    · rfl
  · rfl

theorem handleRuleCreate_same_name :
    ∀ (rules : List MatchingRuleGroup) (newG : MatchingRuleGroup),
      (∃ g ∈ rules, g.productName = newG.productName) →
      (handleRuleCreate rules newG).map (fun g => g.productName) =
        rules.map (fun g => g.productName)
  | [], newG, h => by simp at h
  | g :: rest, newG, h => by
    by_cases hg : g.productName = newG.productName
    · simp [handleRuleCreate, hg, mergeIntoGroup_productName]
    · have h2 : ∃ g2 ∈ rest, g2.productName = newG.productName := by
        obtain ⟨g2, hg2, hn⟩ := h
        rcases List.mem_cons.mp hg2 with heq | hmem
        · subst heq
          exact absurd hn hg
        · exact ⟨g2, hmem, hn⟩
      simp [handleRuleCreate, hg, handleRuleCreate_same_name rest newG h2]

/-- C8: the Matched accumulator key is the matched group's targetName and
never its id — two matched orders whose groups share a targetName land on
the same key; accumulator keys are free of duplicates, so they land in one
single row; and rule creation likewise merges a new rule group into the
first existing group of the same name instead of appending a duplicate. -/
theorem matched_rows_keyed_by_targetName :
    (∀ (gs : List MatchingRuleGroup) (o1 o2 : OrderData)
        (g1 g2 : MatchingRuleGroup) (id1 id2 : String),
        findMatchingRule o1 gs = some (g1, id1) →
        findMatchingRule o2 gs = some (g2, id2) →
        g1.productName = g2.productName →
        rowKey gs o1 = g1.productName ∧ rowKey gs o1 = rowKey gs o2) ∧
    (∀ (orders : List OrderData) (gs : List MatchingRuleGroup),
        ((buildRows orders gs).map Prod.fst).Nodup) ∧
    (∀ (rules : List MatchingRuleGroup) (newG : MatchingRuleGroup),
        (∃ g ∈ rules, g.productName = newG.productName) →
        (handleRuleCreate rules newG).map (fun g => g.productName) =
          rules.map (fun g => g.productName)) := by
  refine ⟨?_, fun orders gs => buildRows_keys_nodup gs orders,
    handleRuleCreate_same_name⟩
  intro gs o1 o2 g1 g2 id1 id2 h1 h2 hname
  rw [rowKey_matched gs o1 g1 id1 h1, rowKey_matched gs o2 g2 id2 h2]
  exact ⟨rfl, hname⟩

def c8Group1 : MatchingRuleGroup :=
  { productName := "Same", stock := 0, quantityWeight := 1
    rules := ["x|||"], ruleWeights := none, id := some "g1" }

def c8Group2 : MatchingRuleGroup :=
  { productName := "Same", stock := 0, quantityWeight := 3
    rules := ["y|||"], ruleWeights := none, id := some "g2" }

def c8Order1 : OrderData := { blankOrder with seller := "x", quantity := 1 }

def c8Order2 : OrderData := { blankOrder with seller := "y", quantity := 2 }

def c8NewGroup : MatchingRuleGroup :=
  { productName := "Same", stock := 0, quantityWeight := 2
    rules := ["z|||"], ruleWeights := none, id := some "g3" }

/-- Witness for C8: two distinct groups named "Same" with distinct ids send
their orders to the one key "Same"; the accumulator keys are duplicate-free;
and creating another "Same" group leaves the group-name list unchanged. -/
theorem matched_rows_keyed_by_targetName_witness :
    (rowKey [c8Group1, c8Group2] c8Order1 = c8Group1.productName ∧
     rowKey [c8Group1, c8Group2] c8Order1 =
       rowKey [c8Group1, c8Group2] c8Order2) ∧
    ((buildRows [c8Order1, c8Order2] [c8Group1, c8Group2]).map
      Prod.fst).Nodup ∧
    (handleRuleCreate [c8Group1, c8Group2] c8NewGroup).map
        (fun g => g.productName) =
      [c8Group1, c8Group2].map (fun g => g.productName) :=
  ⟨matched_rows_keyed_by_targetName.1 [c8Group1, c8Group2] c8Order1 c8Order2
     c8Group1 c8Group2 "x|||" "y|||" (by decide) (by decide) rfl,
   matched_rows_keyed_by_targetName.2.1 [c8Order1, c8Order2]
     [c8Group1, c8Group2],
   matched_rows_keyed_by_targetName.2.2 [c8Group1, c8Group2] c8NewGroup
     ⟨c8Group1, by decide, rfl⟩⟩
